import Mathlib

/-!
# Pebble: verification of the record-to-row mapping engine and query layer

Shallow embedding of the Pebble ORM (Rust, `src/`): the query builder
(`src/query.rs`), the record store (`src/db.rs`), and the two row-to-record
conversion paths (the strict `serde_json::from_value` conversion used by
`db.rs`/`query.rs`, and the coercive `LooseValue` deserializer of
`src/util.rs`).

The SQLite storage engine (rusqlite) is external to the repository; the parts
of its behaviour the claims depend on are modelled from the spec (§6 storage
engine boundary, §4.4 column typing) in definitions whose doc comments start
with `Modelled from the spec:`.
-/

namespace Pebble

/-! ## SQLite values and column probing

A stored SQLite cell holds one of the storage classes NULL, INTEGER, REAL,
TEXT (BLOB is never produced by this crate and is omitted).  64-bit floats
are represented symbolically: a finite value (as a rational) or one of the
three non-finite values; no floating-point arithmetic is performed. -/

inductive F64 where
  | fin (q : Rat)
  | nan
  | inf
  | ninf
deriving DecidableEq, Repr

def F64.isFinite : F64 → Bool
  | .fin _ => true
  | _ => false

inductive SqlVal where
  | null
  | int (n : Int)
  | real (f : F64)
  | text (s : String)
deriving DecidableEq, Repr

/-- rusqlite `row.get::<_, i64>`: succeeds exactly on an INTEGER cell. -/
def getI64 : SqlVal → Option Int
  | .int n => some n
  | _ => none

/-- rusqlite `row.get::<_, String>`: succeeds exactly on a TEXT cell. -/
def getText : SqlVal → Option String
  | .text s => some s
  | _ => none

/-- rusqlite `row.get::<_, f64>`: succeeds on a REAL cell, and also on an
INTEGER cell (rusqlite's `FromSql` for `f64` accepts both). -/
def getF64 : SqlVal → Option F64
  | .real f => some f
  | .int n => some (.fin (n : Rat))
  | _ => none

/-- The type `serde_json::Value`, restricted to the variants this crate produces at
field level (arrays/objects never appear as probed column values).
`jInt` is an integer `Number` (i64/u64), `jFloat` a finite f64 `Number`. -/
inductive Json where
  | jNull
  | jBool (b : Bool)
  | jInt (n : Int)
  | jFloat (q : Rat)
  | jStr (s : String)
deriving DecidableEq, Repr

/-- Rust `serde_json::Number::from_f64`: `none` exactly when the float is
NaN or an infinity. -/
def fromF64 : F64 → Option Rat
  | .fin q => some q
  | _ => none

/-- The column probe of `row_to_model` (identical in `db.rs:222-237`,
`query.rs:122-136` and `util.rs:12-27`): try i64, then String, then f64;
a non-finite f64 becomes `Number(0)` via `from_f64(v).unwrap_or_else(|| 0.into())`;
if all probes fail the value is Null. -/
def probe (v : SqlVal) : Json :=
  match getI64 v with
  | some n => .jInt n
  | none =>
    match getText v with
    | some s => .jStr s
    | none =>
      match getF64 v with
      | some f =>
        match fromF64 f with
        | some q => .jFloat q
        | none => .jInt 0
      | none => .jNull

/-! ## Query builder (`src/query.rs`)

The struct `QueryBuilder` minus the borrowed connection handle.  The Rust
struct has fields named `order_by` and `limit`, shadowed by the methods of
the same names; Lean cannot give a structure field and a definition in the
same namespace the same name, so the fields are called `orderBy` and
`limitN` while the methods keep the source names. -/

structure QueryBuilder where
  table_name : String
  fields : List String
  where_clauses : List String
  where_values : List String
  orderBy : Option String
  limitN : Option Nat
deriving DecidableEq, Repr

namespace QueryBuilder

/-- Method `QueryBuilder::new::<T>`: table and field names come from the type's
`Model` impl (the Type Descriptor). -/
def new (tname : String) (fs : List String) : QueryBuilder :=
  { table_name := tname, fields := fs, where_clauses := [], where_values := [],
    orderBy := none, limitN := none }

/-- Method `QueryBuilder::where_eq`: pushes `"{field} = ?"` and the value's textual
form (`value.to_string()`; values are taken here already in textual form). -/
def where_eq (b : QueryBuilder) (field value : String) : QueryBuilder :=
  { b with where_clauses := b.where_clauses ++ [field ++ " = ?"],
           where_values := b.where_values ++ [value] }

/-- Method `QueryBuilder::where_like`: pushes `"{field} LIKE ?"` and the pattern. -/
def where_like (b : QueryBuilder) (field pattern : String) : QueryBuilder :=
  { b with where_clauses := b.where_clauses ++ [field ++ " LIKE ?"],
           where_values := b.where_values ++ [pattern] }

/-- Method `QueryBuilder::where_gt`: pushes `"{field} > ?"` and the value. -/
def where_gt (b : QueryBuilder) (field value : String) : QueryBuilder :=
  { b with where_clauses := b.where_clauses ++ [field ++ " > ?"],
           where_values := b.where_values ++ [value] }

/-- Method `QueryBuilder::where_lt`: pushes `"{field} < ?"` and the value. -/
def where_lt (b : QueryBuilder) (field value : String) : QueryBuilder :=
  { b with where_clauses := b.where_clauses ++ [field ++ " < ?"],
           where_values := b.where_values ++ [value] }

/-- Method `QueryBuilder::order_by`: replaces the ordering clause with
`"{field} ASC"` or `"{field} DESC"`. -/
def order_by (b : QueryBuilder) (field : String) (ascending : Bool) : QueryBuilder :=
  { b with orderBy := some (field ++ " " ++ (if ascending then "ASC" else "DESC")) }

/-- Method `QueryBuilder::limit`: replaces the row limit. -/
def limit (b : QueryBuilder) (n : Nat) : QueryBuilder :=
  { b with limitN := some n }

/-- The SQL text built by `QueryBuilder::fetch` (query.rs:76-94) before it is
prepared: `SELECT <fields> FROM <table>` then optional WHERE (fragments
joined with `" AND "`), ORDER BY, and LIMIT (the limit is interpolated as a
literal integer). -/
def renderSQL (b : QueryBuilder) : String :=
  let sql := "SELECT " ++ String.intercalate ", " b.fields ++ " FROM " ++ b.table_name
  let sql := if b.where_clauses.isEmpty then sql
             else sql ++ " WHERE " ++ String.intercalate " AND " b.where_clauses
  let sql := match b.orderBy with
             | some o => sql ++ " ORDER BY " ++ o
             | none => sql
  match b.limitN with
  | some n => sql ++ " LIMIT " ++ toString n
  | none => sql

end QueryBuilder

/-! ## Records and their serde serialization

A persistable Rust type is a struct whose field types fall in the §4.2
coercion table: `String`, an integer type, `bool`, `Option<String>`, or a
unit-variant enum.  A `Schema` is its `Model` metadata together with those
field types; a record instance is the list of its field values. -/

inductive FieldTy where
  | str
  | int
  | bool
  | optStr
  | enumT (variants : List String)
deriving DecidableEq, Repr

inductive FieldVal where
  | vStr (s : String)
  | vInt (n : Int)
  | vBool (b : Bool)
  | vNone
  | vSomeStr (s : String)
  | vEnum (s : String)
deriving DecidableEq, Repr

/-- Does a value inhabit a field type?  (`vEnum s` must name a variant.) -/
def wellTypedB : FieldTy → FieldVal → Bool
  | .str, .vStr _ => true
  | .int, .vInt _ => true
  | .bool, .vBool _ => true
  | .optStr, .vNone => true
  | .optStr, .vSomeStr _ => true
  | .enumT vs, .vEnum s => vs.contains s
  | _, _ => false

/-- Rust `serde_json::to_value` on one field: strings and `Some` map to JSON
strings, integers to integer numbers, booleans to booleans, `None` to null,
and a unit enum variant to its name as a string. -/
def serializeField : FieldVal → Json
  | .vStr s => .jStr s
  | .vInt n => .jInt n
  | .vBool b => .jBool b
  | .vNone => .jNull
  | .vSomeStr s => .jStr s
  | .vEnum s => .jStr s

/-- A record instance: named field values (in the declared field order). -/
abbrev Rec := List (String × FieldVal)

/-- A schema: the `Model` metadata with the Rust field types. -/
structure Schema where
  table : String
  tyFields : List (String × FieldTy)
  pk : String
deriving DecidableEq, Repr

/-- Association-list lookup by field name (`serde_json::Map::get`). -/
def jget {α : Type} : List (String × α) → String → Option α
  | [], _ => none
  | (g, x) :: rest, f => if g == f then some x else jget rest f

/-- Effectful map over a list that stops at the first failure — the shape
of every `for ... { out.push(step(x)?) }` loop in the source. -/
def traverseOpt {α β : Type} (g : α → Option β) : List α → Option (List β)
  | [] => some []
  | x :: xs =>
    match g x with
    | none => none
    | some y => (traverseOpt g xs).map (fun ys => y :: ys)

/-- The serialized record: `serde_json::to_value(model)` as an object,
field names mapped to JSON values. -/
def serMap (r : Rec) : List (String × Json) :=
  r.map (fun p => (p.1, serializeField p.2))

/-- The value-to-string rendering shared by `Database::insert`
(db.rs:73-80) and `Database::update` (db.rs:194-201): a JSON string passes
through, a number renders with `Number::to_string`, a boolean with
`bool::to_string` ("true"/"false"), and null renders as the literal string
"NULL".  Compound values cannot arise from the field types modelled here,
and a float number never arises from serializing those types, so that
branch is unreachable and signals an error. -/
def renderParam : Json → Option String
  | .jStr s => some s
  | .jInt n => some (toString n)
  | .jBool b => some (if b then "true" else "false")
  | .jNull => some "NULL"
  | .jFloat _ => none

/-- Method `Database::insert`'s bound-parameter list: for each declared field in
order, look the field up in the serialized object and render it
(db.rs:67-82); a missing field or rendering failure is an error. -/
def insertParams (fieldNames : List String) (m : List (String × Json)) :
    Option (List String) :=
  traverseOpt (fun f => (jget m f).bind renderParam) fieldNames

/-! ## The storage engine (spec-modelled)

rusqlite/SQLite is outside the repository; the following definitions model
the storage-engine boundary of spec §6 ("execute a statement with positional
parameters; prepare+stream rows of a query; report affected-row count") and
the column typing of §4.4 ("the primary-key field is declared as an integer
primary key, every other field as a generic text column"). -/

/-- Modelled from the spec: SQLite's text-to-integer conversion used by
INTEGER column affinity (§4.4's integer primary key receiving a textual
parameter).  Accepts an optional leading minus sign followed by decimal
digits. -/
def decDigits : List Char → Nat → Option Nat
  | [], acc => some acc
  | c :: cs, acc =>
    if c.isDigit then decDigits cs (acc * 10 + (c.toNat - 48)) else none

def decodeInt (s : String) : Option Int :=
  match s.data with
  | [] => none
  | '-' :: ds =>
    match ds with
    | [] => none
    | _ => (decDigits ds 0).map (fun n => -(n : Int))
  | ds => (decDigits ds 0).map (fun n => (n : Int))

/-- Modelled from the spec: storing one bound textual parameter into a
column (§4.4).  The integer-primary-key column has INTEGER affinity, so a
textual parameter that is a well-formed integer is stored as an integer;
every other column is TEXT and stores the text unchanged. -/
def storeParam (isPk : Bool) (s : String) : SqlVal :=
  if isPk then
    match decodeInt s with
    | some n => .int n
    | none => .text s
  else .text s

/-- A stored row: each declared field's name with its stored cell value. -/
abbrev Row := List (String × SqlVal)

def rowCell (r : Row) (f : String) : Option SqlVal := jget r f

/-- Modelled from the spec: the row created by executing the INSERT of
`Database::insert` (one positional parameter per declared field, §4.4
column affinities applied). -/
def mkStoredRow (tyFields : List (String × FieldTy)) (pk : String)
    (ps : List String) : Row :=
  List.zipWith (fun fp p => (fp.1, storeParam (fp.1 == pk) p)) tyFields ps

/-- Method `Database::insert` (db.rs:51-93): serialize the record, render one
parameter per declared field, execute the INSERT; the table gains one row. -/
def dbInsert (sc : Schema) (r : Rec) (t : List Row) : Option (List Row) :=
  (insertParams (sc.tyFields.map Prod.fst) (serMap r)).map
    (fun ps => t ++ [mkStoredRow sc.tyFields sc.pk ps])

/-! ## Row-to-record conversion

Reading a row probes each projected column in declared order (`probe`) and
collects a JSON object; that object is then deserialized into the record
type.  `db.rs::row_to_model` (db.rs:219-246) and `query.rs::row_to_model`
(query.rs:119-145) both use the strict `serde_json::from_value`;
`util.rs::row_to_model` (util.rs:9-38) instead uses the coercive
`LooseValue` deserializer — but `lib.rs` declares only `mod db; mod model;
mod query;`, so `util.rs` is not compiled into the crate and the strict
path is the one every read uses. -/

/-- The probed JSON object for a row, one entry per projected field in
declared order (db.rs:222-237 / query.rs:122-136).  A missing column cannot
arise for rows produced by this store; it is recorded as null. -/
def probeRow (fieldNames : List String) (row : Row) : List (String × Json) :=
  fieldNames.map (fun f =>
    (f, match rowCell row f with
        | some cell => probe cell
        | none => .jNull))

/-- Strict `serde_json::from_value` on one field of the record type: a
string field accepts only a JSON string, an integer field only an integer
number, a boolean only a boolean, `Option<String>` accepts null (`None`)
or a string (`Some`), and a unit enum accepts exactly its variant names. -/
def deserFieldStrict : FieldTy → Json → Option FieldVal
  | .str, .jStr s => some (.vStr s)
  | .int, .jInt n => some (.vInt n)
  | .bool, .jBool b => some (.vBool b)
  | .optStr, .jNull => some .vNone
  | .optStr, .jStr s => some (.vSomeStr s)
  | .enumT vs, .jStr s => if vs.contains s then some (.vEnum s) else none
  | _, _ => none

/-- The `LooseValue` coercive deserializer of `util.rs` on one field:
`deserialize_i64` (impl_int_deser, util.rs:59-79) first tries to parse a
JSON string as the integer type and falls back to `deserialize_any` (which
fails for a non-numeric visitor); integer fields also accept numbers;
`deserialize_option` maps null to `None` and wraps anything else;
`deserialize_enum` accepts a string naming a variant; strings and booleans
are forwarded to `deserialize_any` (strict). -/
def deserFieldLoose : FieldTy → Json → Option FieldVal
  | .str, .jStr s => some (.vStr s)
  | .int, .jStr s => (decodeInt s).map .vInt
  | .int, .jInt n => some (.vInt n)
  | .bool, .jBool b => some (.vBool b)
  | .optStr, .jNull => some .vNone
  | .optStr, .jStr s => some (.vSomeStr s)
  | .enumT vs, .jStr s => if vs.contains s then some (.vEnum s) else none
  | _, _ => none

/-- The strict row-to-record conversion used by every compiled read path
(db.rs:240, query.rs:139): probe the row, then deserialize each declared
field from the probed object. -/
def readRecordStrict (tyFields : List (String × FieldTy)) (row : Row) :
    Option Rec :=
  let m := probeRow (tyFields.map Prod.fst) row
  traverseOpt (fun fp =>
    match jget m fp.1 with
    | some j => (deserFieldStrict fp.2 j).map (fun v => (fp.1, v))
    | none => none) tyFields

/-- The coercive row-to-record conversion of `util.rs` (not wired into the
crate): same probing, `LooseValue` deserialization. -/
def readRecordLoose (tyFields : List (String × FieldTy)) (row : Row) :
    Option Rec :=
  let m := probeRow (tyFields.map Prod.fst) row
  traverseOpt (fun fp =>
    match jget m fp.1 with
    | some j => (deserFieldLoose fp.2 j).map (fun v => (fp.1, v))
    | none => none) tyFields

/-! ## Record store reads and writes -/

/-- Modelled from the spec: evaluating the primary-key equality predicate
`WHERE <pk> = ?` of `find_by_id`/`delete` against a stored row, with the
parameter bound as a 64-bit integer (db.rs:133, db.rs:155). -/
def pkMatches (pk : String) (id : Int) (row : Row) : Bool :=
  match rowCell row pk with
  | some (.int n) => n == id
  | _ => false

/-- Method `Database::find_by_id` (db.rs:120-142): stream the matching rows, take
the first; zero rows is `Ok(None)`, a conversion failure is an error
(outer `none`). -/
def dbFindById (sc : Schema) (t : List Row) (id : Int) : Option (Option Rec) :=
  match (t.filter (pkMatches sc.pk id)).head? with
  | none => some none
  | some row => (readRecordStrict sc.tyFields row).map some

/-- Method `Database::delete` (db.rs:145-156): `DELETE FROM <table> WHERE <pk> = ?`
bound to the i64 key; returns the affected-row count and the new table. -/
def dbDelete (sc : Schema) (t : List Row) (id : Int) : Nat × List Row :=
  (t.countP (pkMatches sc.pk id), t.filter (fun r => !pkMatches sc.pk id r))

/-- Modelled from the spec: evaluating `WHERE <pk> = ?` with a textual
parameter (the rendered key `update` binds, db.rs:206): the INTEGER-affinity
key column converts the text to an integer before comparing. -/
def pkMatchesText (pk : String) (pkParam : String) (row : Row) : Bool :=
  match decodeInt pkParam with
  | some n => pkMatches pk n row
  | none => false

/-- Modelled from the spec: applying the SET assignments of an UPDATE to one
row; every assigned column is a non-key TEXT column, so each bound textual
value is stored unchanged. -/
def applyAssigns (assigns : List (String × String)) (row : Row) : Row :=
  assigns.foldl
    (fun r a => r.map (fun c => if c.1 == a.1 then (c.1, .text a.2) else c))
    row

/-- The SET assignments and WHERE parameter built by `Database::update`
(db.rs:159-216): the rendered value of every non-key field in declared
order, and the rendered primary-key value (a number or string key renders
to text; any other key shape is an error, db.rs:174-178). -/
def updateParams (sc : Schema) (r : Rec) :
    Option (List (String × String) × String) :=
  let m := serMap r
  match jget m sc.pk with
  | some (.jInt n) =>
    (traverseOpt
        (fun fp => ((jget m fp.1).bind renderParam).map (fun v => (fp.1, v)))
        (sc.tyFields.filter (fun fp => fp.1 != sc.pk))).map
      (fun assigns => (assigns, toString n))
  | some (.jStr s) =>
    (traverseOpt
        (fun fp => ((jget m fp.1).bind renderParam).map (fun v => (fp.1, v)))
        (sc.tyFields.filter (fun fp => fp.1 != sc.pk))).map
      (fun assigns => (assigns, s))
  | _ => none

/-- Method `Database::update` executed against the modelled engine: build the
assignments, run `UPDATE <table> SET <f1 = ?, ...> WHERE <pk> = ?`, return
the affected-row count and the new table.  An empty SET list would render
malformed SQL and is an engine error. -/
def dbUpdate (sc : Schema) (r : Rec) (t : List Row) :
    Option (Nat × List Row) :=
  (updateParams sc r).bind (fun ap =>
    if ap.1.isEmpty then none
    else some
      (t.countP (pkMatchesText sc.pk ap.2),
       t.map (fun row =>
         if pkMatchesText sc.pk ap.2 row then applyAssigns ap.1 row else row)))

/-! ## Executing a built query (spec-modelled engine) -/

/-- Modelled from the spec: the engine resolves the identifier of a
parameterized equality fragment `"<field> = ?"` against the table's schema
columns.  Non-equality fragments (`>`, `<`, `LIKE`) are outside the
modelled engine. -/
def parseEqFrag (fieldNames : List String) (frag : String) : Option String :=
  fieldNames.find? (fun f => frag == f ++ " = ?")

/-- Modelled from the spec: SQL `=` between a stored cell and a textual
bound parameter.  A TEXT cell compares as text; an INTEGER cell (integer
affinity) converts the parameter to an integer first; comparisons against
REAL or NULL cells never hold for the rows this store writes. -/
def evalEqCell (cell : Option SqlVal) (v : String) : Bool :=
  match cell with
  | some (.text s) => s == v
  | some (.int n) => decodeInt v == some n
  | _ => false

/-- Modelled from the spec: executing the prepared SELECT of
`QueryBuilder::fetch` with its bound values supplied positionally (§6,
query.rs:96-101): each WHERE fragment is resolved against the schema and
evaluated as a parameterized equality; rows satisfying every predicate are
streamed (table order), then the literal LIMIT is applied.  An ordering
clause, an unresolvable fragment, or a fragment/value count mismatch is
outside the modelled engine (`none`). -/
def execFetchRows (b : QueryBuilder) (t : List Row) : Option (List Row) :=
  match b.orderBy with
  | some _ => none
  | none =>
    if b.where_clauses.length == b.where_values.length then
      (traverseOpt
          (fun p => (parseEqFrag b.fields p.1).map (fun f => (f, p.2)))
          (b.where_clauses.zip b.where_values)).map
        (fun preds =>
          let rows := t.filter
            (fun r => preds.all (fun p => evalEqCell (rowCell r p.1) p.2))
          match b.limitN with
          | some n => rows.take n
          | none => rows)
    else none

/-- Method `QueryBuilder::fetch` (query.rs:75-109) over the modelled engine:
execute the rendered SELECT, convert every returned row with the strict
row-to-record conversion (a failing row fails the whole fetch), and return
the records together with the table, which a SELECT leaves unchanged. -/
def dbFetch (tyFields : List (String × FieldTy)) (b : QueryBuilder)
    (t : List Row) : Option (List Rec × List Row) :=
  (execFetchRows b t).bind (fun rows =>
    (traverseOpt (readRecordStrict tyFields) rows).map (fun recs => (recs, t)))

/-- Method `QueryBuilder::fetch_one` (query.rs:112-115): `self.limit(1).fetch()`
then `results.into_iter().next()` — zero rows yields `Ok(None)`. -/
def dbFetchOne (tyFields : List (String × FieldTy)) (b : QueryBuilder)
    (t : List Row) : Option (Option Rec) :=
  (dbFetch tyFields (b.limit 1) t).map (fun p => p.1.head?)

/-! ## Builder call sequences

A caller's sequence of WHERE-building calls, used to state properties
quantified over "every query built with where_eq/where_gt/where_lt/
where_like". -/

inductive WhereOp where
  | weq (f v : String)
  | wgt (f v : String)
  | wlt (f v : String)
  | wlike (f v : String)
deriving DecidableEq, Repr

def applyWhere (b : QueryBuilder) : WhereOp → QueryBuilder
  | .weq f v => b.where_eq f v
  | .wgt f v => b.where_gt f v
  | .wlt f v => b.where_lt f v
  | .wlike f v => b.where_like f v

def applyWheres (b : QueryBuilder) (ops : List WhereOp) : QueryBuilder :=
  ops.foldl applyWhere b

/-- The shape of a call: which operator and which field, ignoring the
caller-supplied value. -/
def shapeOf : WhereOp → Nat × String
  | .weq f _ => (0, f)
  | .wgt f _ => (1, f)
  | .wlt f _ => (2, f)
  | .wlike f _ => (3, f)

/-- The predicate fragment a call of the given shape appends. -/
def fragShape (p : Nat × String) : String :=
  p.2 ++ (match p.1 with
          | 0 => " = ?"
          | 1 => " > ?"
          | 2 => " < ?"
          | _ => " LIKE ?")

def fragOf (op : WhereOp) : String := fragShape (shapeOf op)

def valOf : WhereOp → String
  | .weq _ v => v
  | .wgt _ v => v
  | .wlt _ v => v
  | .wlike _ v => v

/-! ## Round-trip bookkeeping -/

/-- The textual rendering of one serialized field value (the composite of
`serializeField` and the insert/update value match, db.rs:73-80). -/
def renderedVal : FieldVal → String
  | .vStr s => s
  | .vInt n => toString n
  | .vBool b => if b then "true" else "false"
  | .vNone => "NULL"
  | .vSomeStr s => s
  | .vEnum s => s

/-- Non-key attribute shapes that survive the store-as-text round trip
under the strict conversion: strings, present optional strings, and
enumerated variant names. -/
def roundOK : FieldTy → FieldVal → Bool
  | .str, .vStr _ => true
  | .optStr, .vSomeStr _ => true
  | .enumT vs, .vEnum s => vs.contains s
  | _, _ => false

/-- Positional alignment of a record with its schema: names agree, the
field named `pk` is an integer holding an integer value, and every other
field has a shape in `roundOK`. -/
def rtAligned (pk : String) : List (String × FieldTy) → Rec → Bool
  | [], [] => true
  | fp :: fs, gv :: rs =>
    fp.1 == gv.1 &&
    (if fp.1 == pk then
       (match fp.2, gv.2 with
        | .int, .vInt _ => true
        | _, _ => false)
     else roundOK fp.2 gv.2) &&
    rtAligned pk fs rs
  | _, _ => false

/-- The row `dbInsert` stores for an aligned record: each field's rendered
text, put through its column's affinity. -/
def storedRow (pk : String) (r : Rec) : Row :=
  r.map (fun gv => (gv.1, storeParam (gv.1 == pk) (renderedVal gv.2)))

/-! ## Concrete instances used by counterexamples and witnesses -/

def userSchema : Schema :=
  ⟨"users", [("id", .int), ("name", .str), ("email", .str)], "id"⟩

def userFieldNames : List String := ["id", "name", "email"]

def aliceRec : Rec :=
  [("id", .vInt 1), ("name", .vStr "Alice"), ("email", .vStr "alice@example.com")]

def aliceRow : Row :=
  [("id", .int 1), ("name", .text "Alice"), ("email", .text "alice@example.com")]

def bobRow : Row :=
  [("id", .int 2), ("name", .text "Bob"), ("email", .text "bob@example.com")]

/-- The injection attempt of `test_sql_injection_protection` (tests.rs:293). -/
def maliciousInput : String := "Alice'; DROP TABLE users; --"

/-- A schema with a boolean attribute (C2's counterexample). -/
def boolSchema : Schema := ⟨"flags", [("id", .int), ("flag", .bool)], "id"⟩

def flagRec : Rec := [("id", .vInt 1), ("flag", .vBool true)]

/-- The `Post` model of the crate's own test suite (tests.rs:21-37), whose
`author_id` field is a non-key integer. -/
def postSchema : Schema :=
  ⟨"posts", [("id", .int), ("title", .str), ("content", .str), ("author_id", .int)], "id"⟩

/-- The `Post` inserted by `test_multiple_models` (tests.rs:320-326). -/
def postRec : Rec :=
  [("id", .vInt 1), ("title", .vStr "My First Post"),
   ("content", .vStr "Hello, World!"), ("author_id", .vInt 1)]

/-- A schema with an optional attribute (C10's witness). -/
def optSchema : Schema := ⟨"people", [("id", .int), ("nick", .optStr)], "id"⟩

def optRec : Rec := [("id", .vInt 7), ("nick", .vNone)]

/-- A schema exercising every attribute shape that round-trips: integer
primary key, strings, an enumerated role, a present optional. -/
def mixSchema : Schema :=
  ⟨"accounts",
   [("id", .int), ("name", .str), ("role", .enumT ["Admin", "User"]),
    ("nick", .optStr)],
   "id"⟩

def mixRec : Rec :=
  [("id", .vInt 5), ("name", .vStr "Alice"), ("role", .vEnum "Admin"),
   ("nick", .vSomeStr "Al")]

/-! ## Helper lemmas -/

theorem strAppendCancel (a b c : String) (h : a ++ c = b ++ c) : a = b := by
  have hd := congrArg String.data h
  simp only [String.data_append] at hd
  exact String.ext (List.append_cancel_right hd)

theorem jget_cons_self {α : Type} (f : String) (x : α) (m : List (String × α)) :
    jget ((f, x) :: m) f = some x := by
  simp [jget]

theorem jget_cons_ne {α : Type} (g f : String) (x : α) (m : List (String × α))
    (h : g ≠ f) : jget ((g, x) :: m) f = jget m f := by
  simp [jget, h]

theorem renderParam_serialize (v : FieldVal) :
    renderParam (serializeField v) = some (renderedVal v) := by
  cases v <;> rfl

theorem parseEqFrag_self (fs : List String) (f : String) (hf : f ∈ fs) :
    parseEqFrag fs (f ++ " = ?") = some f := by
  induction fs with
  | nil => cases hf
  | cons g gs ih =>
    rw [parseEqFrag, List.find?]
    by_cases hgf : g = f
    · subst hgf; simp
    · have : ((f ++ " = ?" : String) == g ++ " = ?") = false := by
        apply beq_eq_false_iff_ne.mpr
        intro hcon
        exact hgf (strAppendCancel g f " = ?" hcon.symm) |>.elim
      rw [this]
      rcases hf with _ | hf'
      · exact absurd rfl hgf
      · exact ih ‹f ∈ gs›

theorem applyWhere_clauses (b : QueryBuilder) (op : WhereOp) :
    (applyWhere b op).where_clauses = b.where_clauses ++ [fragOf op] := by
  cases op <;> rfl

theorem applyWhere_values (b : QueryBuilder) (op : WhereOp) :
    (applyWhere b op).where_values = b.where_values ++ [valOf op] := by
  cases op <;> rfl

theorem applyWhere_rest (b : QueryBuilder) (op : WhereOp) :
    (applyWhere b op).table_name = b.table_name ∧
    (applyWhere b op).fields = b.fields ∧
    (applyWhere b op).orderBy = b.orderBy ∧
    (applyWhere b op).limitN = b.limitN := by
  cases op <;> exact ⟨rfl, rfl, rfl, rfl⟩

theorem applyWheres_clauses (ops : List WhereOp) : ∀ b : QueryBuilder,
    (applyWheres b ops).where_clauses = b.where_clauses ++ ops.map fragOf := by
  induction ops with
  | nil => intro b; simp [applyWheres]
  | cons op rest ih =>
    intro b
    show (applyWheres (applyWhere b op) rest).where_clauses = _
    rw [ih, applyWhere_clauses]
    simp

theorem applyWheres_values (ops : List WhereOp) : ∀ b : QueryBuilder,
    (applyWheres b ops).where_values = b.where_values ++ ops.map valOf := by
  induction ops with
  | nil => intro b; simp [applyWheres]
  | cons op rest ih =>
    intro b
    show (applyWheres (applyWhere b op) rest).where_values = _
    rw [ih, applyWhere_values]
    simp

theorem applyWheres_rest (ops : List WhereOp) : ∀ b : QueryBuilder,
    (applyWheres b ops).table_name = b.table_name ∧
    (applyWheres b ops).fields = b.fields ∧
    (applyWheres b ops).orderBy = b.orderBy ∧
    (applyWheres b ops).limitN = b.limitN := by
  induction ops with
  | nil => intro b; exact ⟨rfl, rfl, rfl, rfl⟩
  | cons op rest ih =>
    intro b
    have h1 := applyWhere_rest b op
    have h2 := ih (applyWhere b op)
    exact ⟨h2.1.trans h1.1, h2.2.1.trans h1.2.1, h2.2.2.1.trans h1.2.2.1,
           h2.2.2.2.trans h1.2.2.2⟩

theorem renderSQL_congr (b1 b2 : QueryBuilder)
    (h1 : b1.table_name = b2.table_name) (h2 : b1.fields = b2.fields)
    (h3 : b1.where_clauses = b2.where_clauses) (h4 : b1.orderBy = b2.orderBy)
    (h5 : b1.limitN = b2.limitN) : QueryBuilder.renderSQL b1 = QueryBuilder.renderSQL b2 := by
  cases b1; cases b2
  simp only at h1 h2 h3 h4 h5
  subst h1 h2 h3 h4 h5
  rfl

theorem traverseOpt_congr {α β : Type} (g h : α → Option β) (xs : List α)
    (he : ∀ x ∈ xs, g x = h x) : traverseOpt g xs = traverseOpt h xs := by
  induction xs with
  | nil => rfl
  | cons x rest ih =>
    rw [traverseOpt, traverseOpt, he x (List.mem_cons_self x rest),
        ih (fun y hy => he y (List.mem_cons_of_mem x hy))]

theorem traverseOpt_mem {α β : Type} (g : α → Option β) :
    ∀ (xs : List α) (ys : List β), traverseOpt g xs = some ys →
    ∀ y ∈ ys, ∃ x ∈ xs, g x = some y := by
  intro xs
  induction xs with
  | nil => intro ys h y hy; rw [traverseOpt] at h; cases h; cases hy
  | cons x rest ih =>
    intro ys h y hy
    rw [traverseOpt] at h
    cases hg : g x with
    | none => rw [hg] at h; cases h
    | some z =>
      rw [hg] at h
      cases hrest : traverseOpt g rest with
      | none => rw [hrest] at h; cases h
      | some zs =>
        rw [hrest] at h
        simp only [Option.map_some'] at h
        cases h
        rcases List.mem_cons.mp hy with hzy | hyzs
        · exact ⟨x, List.mem_cons_self x rest, hzy ▸ hg⟩
        · rcases ih zs hrest y hyzs with ⟨x', hx', hgx'⟩
          exact ⟨x', List.mem_cons_of_mem x hx', hgx'⟩

theorem traverseOpt_length {α β : Type} (g : α → Option β) :
    ∀ (xs : List α) (ys : List β), traverseOpt g xs = some ys →
    ys.length = xs.length := by
  intro xs
  induction xs with
  | nil => intro ys h; rw [traverseOpt] at h; cases h; rfl
  | cons x rest ih =>
    intro ys h
    rw [traverseOpt] at h
    cases hg : g x with
    | none => rw [hg] at h; cases h
    | some z =>
      rw [hg] at h
      cases hrest : traverseOpt g rest with
      | none => rw [hrest] at h; cases h
      | some zs =>
        rw [hrest] at h
        simp only [Option.map_some'] at h
        cases h
        simp [ih zs hrest]

theorem traverseOpt_get {α β : Type} (g : α → Option β) :
    ∀ (xs : List α) (ys : List β), traverseOpt g xs = some ys →
    ∀ (i : Nat) (h1 : i < xs.length) (h2 : i < ys.length),
      g (xs.get ⟨i, h1⟩) = some (ys.get ⟨i, h2⟩) := by
  intro xs
  induction xs with
  | nil => intro ys h i h1; cases h1
  | cons x rest ih =>
    intro ys h i h1 h2
    rw [traverseOpt] at h
    cases hg : g x with
    | none => rw [hg] at h; cases h
    | some z =>
      rw [hg] at h
      cases hrest : traverseOpt g rest with
      | none => rw [hrest] at h; cases h
      | some zs =>
        rw [hrest] at h
        simp only [Option.map_some'] at h
        cases h
        cases i with
        | zero => exact hg
        | succ j =>
          exact ih zs hrest j (Nat.lt_of_succ_lt_succ h1) (Nat.lt_of_succ_lt_succ h2)

theorem jget_keyfun {α : Type} (G : String → α) :
    ∀ (names : List String) (f : String), f ∈ names →
    jget (names.map (fun n => (n, G n))) f = some (G f) := by
  intro names
  induction names with
  | nil => intro f hf; cases hf
  | cons n rest ih =>
    intro f hf
    by_cases hnf : n = f
    · subst hnf; simp [jget]
    · rw [List.map_cons, jget_cons_ne n f _ _ hnf]
      rcases List.mem_cons.mp hf with h | h
      · exact absurd h.symm hnf
      · exact ih f h

theorem jget_mapVal {α β : Type} (F : String → α → β) :
    ∀ (r : List (String × α)) (f : String),
    jget (r.map (fun gv => (gv.1, F gv.1 gv.2))) f = (jget r f).map (F f) := by
  intro r
  induction r with
  | nil => intro f; rfl
  | cons gv rest ih =>
    intro f
    by_cases h : gv.1 = f
    · subst h; simp [jget]
    · rw [List.map_cons, jget_cons_ne gv.1 f _ _ h, jget_cons_ne gv.1 f _ _ h, ih f]

theorem jget_serMap (r : Rec) (f : String) :
    jget (serMap r) f = (jget r f).map serializeField :=
  jget_mapVal (fun _ v => serializeField v) r f

theorem traverseOpt_forward {α β : Type} (g : α → Option β) :
    ∀ (xs : List α) (ys : List β), traverseOpt g xs = some ys →
    ∀ x ∈ xs, ∀ y, g x = some y → y ∈ ys := by
  intro xs
  induction xs with
  | nil => intro ys h x hx; cases hx
  | cons a rest ih =>
    intro ys h x hx y hgxy
    rw [traverseOpt] at h
    cases hg : g a with
    | none => rw [hg] at h; cases h
    | some z =>
      rw [hg] at h
      cases hrest : traverseOpt g rest with
      | none => rw [hrest] at h; cases h
      | some zs =>
        rw [hrest] at h
        simp only [Option.map_some'] at h
        cases h
        rcases List.mem_cons.mp hx with hxa | hxr
        · subst hxa
          rw [hg] at hgxy
          cases hgxy
          exact List.mem_cons_self _ _
        · exact List.mem_cons_of_mem _ (ih zs hrest x hxr y hgxy)

theorem aligned_names (pk : String) :
    ∀ (tyFs : List (String × FieldTy)) (r : Rec),
    rtAligned pk tyFs r = true → tyFs.map Prod.fst = r.map Prod.fst := by
  intro tyFs
  induction tyFs with
  | nil => intro r h; cases r with
    | nil => rfl
    | cons gv rs => simp [rtAligned] at h
  | cons fp fs ih =>
    intro r h
    cases r with
    | nil => simp [rtAligned] at h
    | cons gv rs =>
      rw [rtAligned, Bool.and_eq_true, Bool.and_eq_true] at h
      obtain ⟨⟨h1, _⟩, h3⟩ := h
      rw [List.map_cons, List.map_cons, ih rs h3, beq_iff_eq.mp h1]

theorem jget_unique {α : Type} :
    ∀ (r : List (String × α)) (f : String) (v : α),
    (r.map Prod.fst).Nodup → jget r f = some v →
    ∀ gv ∈ r, gv.1 = f → gv.2 = v := by
  intro r
  induction r with
  | nil => intro f v _ h; cases h
  | cons hd rs ih =>
    intro f v hnd hj gv hgv hgvf
    obtain ⟨g, x⟩ := hd
    rw [List.map_cons, List.nodup_cons] at hnd
    by_cases hgf : g = f
    · subst hgf
      rw [jget_cons_self] at hj
      have hx : x = v := Option.some.inj hj
      rcases List.mem_cons.mp hgv with heq | hmem
      · rw [heq]; exact hx
      · exfalso
        apply hnd.1
        have hin : gv.1 ∈ rs.map Prod.fst := List.mem_map_of_mem Prod.fst hmem
        rw [hgvf] at hin
        exact hin
    · rw [jget_cons_ne g f x rs hgf] at hj
      rcases List.mem_cons.mp hgv with heq | hmem
      · exact absurd (heq ▸ hgvf : (g, x).1 = f) hgf
      · exact ih f v hnd.2 hj gv hmem hgvf

theorem insertParams_of_names :
    ∀ (r : Rec), (r.map Prod.fst).Nodup →
    insertParams (r.map Prod.fst) (serMap r)
      = some (r.map (fun gv => renderedVal gv.2)) := by
  intro r
  induction r with
  | nil => intro _; rfl
  | cons gv rs ih =>
    intro hnd
    rw [List.map_cons, List.nodup_cons] at hnd
    rw [List.map_cons, insertParams, traverseOpt]
    have hhead : jget (serMap (gv :: rs)) gv.1 = some (serializeField gv.2) := by
      rw [show serMap (gv :: rs) = (gv.1, serializeField gv.2) :: serMap rs from rfl]
      exact jget_cons_self _ _ _
    rw [hhead]
    simp only [Option.some_bind]
    rw [renderParam_serialize]
    have htail : traverseOpt (fun f => (jget (serMap (gv :: rs)) f).bind renderParam)
        (rs.map Prod.fst)
        = traverseOpt (fun f => (jget (serMap rs) f).bind renderParam)
        (rs.map Prod.fst) := by
      apply traverseOpt_congr
      intro x hx
      have hne : gv.1 ≠ x := fun hcon => hnd.1 (hcon ▸ hx)
      rw [show serMap (gv :: rs) = (gv.1, serializeField gv.2) :: serMap rs from rfl,
          jget_cons_ne gv.1 x _ _ hne]
    rw [show insertParams (rs.map Prod.fst) (serMap rs)
          = traverseOpt (fun f => (jget (serMap rs) f).bind renderParam)
            (rs.map Prod.fst) from rfl] at ih
    rw [htail, ih hnd.2]
    rfl

theorem mkStored_aligned (pk : String) :
    ∀ (tyFs : List (String × FieldTy)) (r : Rec),
    tyFs.map Prod.fst = r.map Prod.fst →
    mkStoredRow tyFs pk (r.map (fun gv => renderedVal gv.2)) = storedRow pk r := by
  intro tyFs
  induction tyFs with
  | nil => intro r h
           cases r with
           | nil => rfl
           | cons gv rs => cases h
  | cons fp fs ih =>
    intro r h
    cases r with
    | nil => cases h
    | cons gv rs =>
      rw [List.map_cons, List.map_cons] at h
      have h1 : fp.1 = gv.1 := (List.cons.inj h).1
      have h2 := (List.cons.inj h).2
      rw [List.map_cons, mkStoredRow, List.zipWith_cons_cons]
      rw [show storedRow pk (gv :: rs)
            = (gv.1, storeParam (gv.1 == pk) (renderedVal gv.2)) :: storedRow pk rs
          from rfl]
      rw [show List.zipWith (fun fp p => (fp.1, storeParam (fp.1 == pk) p)) fs
            (rs.map (fun gv => renderedVal gv.2)) = mkStoredRow fs pk
            (rs.map (fun gv => renderedVal gv.2)) from rfl]
      rw [ih rs h2, h1]

theorem roundOK_deser (ty : FieldTy) (v : FieldVal) (h : roundOK ty v = true) :
    deserFieldStrict ty (probe (storeParam false (renderedVal v))) = some v := by
  cases ty with
  | str => cases v <;> simp [roundOK] at h <;> rfl
  | int => simp [roundOK] at h
  | bool => simp [roundOK] at h
  | optStr => cases v <;> simp [roundOK] at h <;> rfl
  | enumT vs =>
    cases v <;> simp [roundOK] at h
    case vEnum s =>
      show deserFieldStrict (FieldTy.enumT vs) (Json.jStr s) = _
      rw [deserFieldStrict]
      simp [h]

theorem pk_deser (id : Int) (hid : decodeInt (toString id) = some id) :
    deserFieldStrict FieldTy.int
      (probe (storeParam true (renderedVal (FieldVal.vInt id))))
      = some (FieldVal.vInt id) := by
  rw [show renderedVal (FieldVal.vInt id) = toString id from rfl, storeParam]
  simp only [if_pos]
  rw [hid]
  rfl

theorem jget_keyfun_congr {α : Type} (G1 G2 : String → α) :
    ∀ (names : List String), (∀ g ∈ names, G1 g = G2 g) → ∀ (g : String),
    jget (names.map (fun n => (n, G1 n))) g
      = jget (names.map (fun n => (n, G2 n))) g := by
  intro names
  induction names with
  | nil => intro _ g; rfl
  | cons x xs ihx =>
    intro h g
    by_cases hxg : x = g
    · subst hxg
      rw [List.map_cons, List.map_cons, jget_cons_self, jget_cons_self,
          h x (List.mem_cons_self x xs)]
    · rw [List.map_cons, List.map_cons, jget_cons_ne x g _ _ hxg,
          jget_cons_ne x g _ _ hxg]
      exact ihx (fun y hy => h y (List.mem_cons_of_mem x hy)) g

theorem readRecord_storedRow (pk : String) (id : Int)
    (hid : decodeInt (toString id) = some id) :
    ∀ (tyFs : List (String × FieldTy)) (r : Rec),
    rtAligned pk tyFs r = true →
    (r.map Prod.fst).Nodup →
    (∀ gv ∈ r, gv.1 = pk → gv.2 = FieldVal.vInt id) →
    readRecordStrict tyFs (storedRow pk r) = some r := by
  intro tyFs
  induction tyFs with
  | nil =>
    intro r hAl _ _
    cases r with
    | nil => rfl
    | cons gv rs => simp [rtAligned] at hAl
  | cons fp fs ih =>
    intro r hAl hnd hpkv
    cases r with
    | nil => simp [rtAligned] at hAl
    | cons gv rs =>
      obtain ⟨gn, gval⟩ := gv
      rw [rtAligned, Bool.and_eq_true, Bool.and_eq_true] at hAl
      obtain ⟨⟨hb1, hb2⟩, hb3⟩ := hAl
      have h1 : fp.1 = gn := beq_iff_eq.mp hb1
      rw [List.map_cons, List.nodup_cons] at hnd
      have hnames : fs.map Prod.fst = rs.map Prod.fst := aligned_names pk fs rs hb3
      have hdeser : deserFieldStrict fp.2
          (probe (storeParam (gn == pk) (renderedVal gval))) = some gval := by
        by_cases hpkb : gn = pk
        · have hgval : gval = FieldVal.vInt id :=
            hpkv (gn, gval) (List.mem_cons_self _ _) hpkb
          rw [if_pos (beq_iff_eq.mpr (h1.trans hpkb))] at hb2
          subst hgval
          have hfp2 : fp.2 = FieldTy.int := by
            cases h2t : fp.2 with
            | int => rfl
            | str => rw [h2t] at hb2; simp at hb2
            | bool => rw [h2t] at hb2; simp at hb2
            | optStr => rw [h2t] at hb2; simp at hb2
            | enumT vs => rw [h2t] at hb2; simp at hb2
          rw [hfp2, show (gn == pk) = true from beq_iff_eq.mpr hpkb]
          exact pk_deser id hid
        · rw [if_neg (fun hcon => hpkb (h1.symm.trans (beq_iff_eq.mp hcon)))] at hb2
          rw [show (gn == pk) = false from beq_eq_false_iff_ne.mpr hpkb]
          exact roundOK_deser fp.2 gval hb2
      have hcell : rowCell (storedRow pk ((gn, gval) :: rs)) fp.1
          = some (storeParam (gn == pk) (renderedVal gval)) := by
        rw [h1]
        exact jget_cons_self _ _ _
      have hG : ∀ g ∈ fs.map Prod.fst,
          jget (probeRow ((fp :: fs).map Prod.fst) (storedRow pk ((gn, gval) :: rs))) g
            = jget (probeRow (fs.map Prod.fst) (storedRow pk rs)) g := by
        intro g hg
        have hgrs : g ∈ rs.map Prod.fst := hnames ▸ hg
        have hgne : g ≠ gn := fun hcon => hnd.1 (hcon ▸ hgrs)
        have hfpne : fp.1 ≠ g := fun hcon => hgne (hcon.symm.trans h1)
        rw [show probeRow ((fp :: fs).map Prod.fst) (storedRow pk ((gn, gval) :: rs))
              = (fp.1, match rowCell (storedRow pk ((gn, gval) :: rs)) fp.1 with
                       | some cell => probe cell
                       | none => Json.jNull)
                :: probeRow (fs.map Prod.fst) (storedRow pk ((gn, gval) :: rs))
            from rfl]
        rw [jget_cons_ne fp.1 g _ _ hfpne]
        have hcells : ∀ g2 ∈ fs.map Prod.fst,
            (fun f => match rowCell (storedRow pk ((gn, gval) :: rs)) f with
                      | some cell => probe cell
                      | none => Json.jNull) g2
            = (fun f => match rowCell (storedRow pk rs) f with
                        | some cell => probe cell
                        | none => Json.jNull) g2 := by
          intro g2 hg2
          have hgrs2 : g2 ∈ rs.map Prod.fst := hnames ▸ hg2
          have hgne2 : gn ≠ g2 := fun hcon => hnd.1 (hcon ▸ hgrs2)
          show (match rowCell (storedRow pk ((gn, gval) :: rs)) g2 with
                | some cell => probe cell
                | none => Json.jNull) = _
          rw [show rowCell (storedRow pk ((gn, gval) :: rs)) g2
                = jget ((gn, storeParam (gn == pk) (renderedVal gval))
                        :: storedRow pk rs) g2 from rfl]
          rw [jget_cons_ne gn g2 _ _ hgne2]
          rfl
        exact jget_keyfun_congr _ _ (fs.map Prod.fst) hcells g
      show traverseOpt
          (fun fp2 =>
            match jget (probeRow ((fp :: fs).map Prod.fst)
                (storedRow pk ((gn, gval) :: rs))) fp2.1 with
            | some j => (deserFieldStrict fp2.2 j).map (fun v => (fp2.1, v))
            | none => none)
          (fp :: fs) = some ((gn, gval) :: rs)
      rw [traverseOpt]
      have hMhead : jget (probeRow ((fp :: fs).map Prod.fst)
          (storedRow pk ((gn, gval) :: rs))) fp.1
          = some (probe (storeParam (gn == pk) (renderedVal gval))) := by
        rw [show probeRow ((fp :: fs).map Prod.fst) (storedRow pk ((gn, gval) :: rs))
              = (fp.1, match rowCell (storedRow pk ((gn, gval) :: rs)) fp.1 with
                       | some cell => probe cell
                       | none => Json.jNull)
                :: probeRow (fs.map Prod.fst) (storedRow pk ((gn, gval) :: rs))
            from rfl]
        rw [jget_cons_self, hcell]
      rw [hMhead]
      simp only [hdeser, Option.map_some']
      have htail : traverseOpt
          (fun fp2 =>
            match jget (probeRow ((fp :: fs).map Prod.fst)
                (storedRow pk ((gn, gval) :: rs))) fp2.1 with
            | some j => (deserFieldStrict fp2.2 j).map (fun v => (fp2.1, v))
            | none => none)
          fs = some rs := by
        rw [traverseOpt_congr _
            (fun fp2 =>
              match jget (probeRow (fs.map Prod.fst) (storedRow pk rs)) fp2.1 with
              | some j => (deserFieldStrict fp2.2 j).map (fun v => (fp2.1, v))
              | none => none)
            fs
            (fun fp2 hfp2 => by rw [hG fp2.1 (List.mem_map_of_mem Prod.fst hfp2)])]
        exact ih rs hb3 hnd.2
          (fun gv2 hgv2 hf => hpkv gv2 (List.mem_cons_of_mem _ hgv2) hf)
      rw [htail]
      rw [h1]
      rfl

theorem applyAssigns_rowCell_ne (f : String) :
    ∀ (assigns : List (String × String)) (row : Row),
    (∀ a ∈ assigns, a.1 ≠ f) →
    rowCell (applyAssigns assigns row) f = rowCell row f := by
  intro assigns
  induction assigns with
  | nil => intro row _; rfl
  | cons a as ih =>
    intro row h
    rw [applyAssigns, List.foldl_cons]
    rw [show List.foldl
          (fun r a2 => r.map (fun c => if c.1 == a2.1 then (c.1, SqlVal.text a2.2) else c))
          (row.map (fun c => if c.1 == a.1 then (c.1, SqlVal.text a.2) else c)) as
        = applyAssigns as
            (row.map (fun c => if c.1 == a.1 then (c.1, SqlVal.text a.2) else c))
        from rfl]
    rw [ih _ (fun a2 ha2 => h a2 (List.mem_cons_of_mem a ha2))]
    have hmap : row.map (fun c => if c.1 == a.1 then (c.1, SqlVal.text a.2) else c)
        = row.map (fun c => (c.1, if c.1 == a.1 then SqlVal.text a.2 else c.2)) := by
      apply List.map_congr_left
      intro c _
      by_cases hc : c.1 == a.1
      · rw [if_pos hc, if_pos hc]
      · rw [if_neg hc, if_neg hc]
    rw [hmap]
    rw [show rowCell (row.map (fun c => (c.1, if c.1 == a.1 then SqlVal.text a.2 else c.2))) f
          = jget (row.map (fun gv =>
              (gv.1, (fun g v => if g == a.1 then SqlVal.text a.2 else v) gv.1 gv.2))) f
        from rfl]
    rw [jget_mapVal (fun g v => if g == a.1 then SqlVal.text a.2 else v) row f]
    have hne : (f == a.1) = false :=
      beq_eq_false_iff_ne.mpr (fun hcon => h a (List.mem_cons_self a as) hcon.symm)
    rw [hne]
    rw [show rowCell row f = jget row f from rfl]
    cases jget row f <;> rfl

theorem updateParams_assigns (sc : Schema) (r : Rec)
    (assigns : List (String × String)) (pkp : String)
    (h : updateParams sc r = some (assigns, pkp)) :
    ∀ a ∈ assigns, a.1 ≠ sc.pk := by
  intro a ha
  have hmain : ∀ (tr : List (String × String)),
      traverseOpt
        (fun fp => ((jget (serMap r) fp.1).bind renderParam).map (fun v => (fp.1, v)))
        (sc.tyFields.filter (fun fp => fp.1 != sc.pk)) = some tr →
      a ∈ tr → a.1 ≠ sc.pk := by
    intro tr htr hatr
    obtain ⟨fp, hfp, hgfp⟩ := traverseOpt_mem _ _ tr htr a hatr
    have hfppk : (fp.1 != sc.pk) = true := (List.mem_filter.mp hfp).2
    cases hbind : (jget (serMap r) fp.1).bind renderParam with
    | none => rw [hbind] at hgfp; cases hgfp
    | some v =>
      rw [hbind] at hgfp
      simp only [Option.map_some'] at hgfp
      have hfv : (fp.1, v) = a := Option.some.inj hgfp
      rw [← hfv]
      exact ne_of_beq_false (by simpa using hfppk)
  rw [updateParams] at h
  cases hpk : jget (serMap r) sc.pk with
  | none => rw [hpk] at h; cases h
  | some j =>
    rw [hpk] at h
    cases j with
    | jInt n =>
      cases htr : traverseOpt
          (fun fp => ((jget (serMap r) fp.1).bind renderParam).map (fun v => (fp.1, v)))
          (sc.tyFields.filter (fun fp => fp.1 != sc.pk)) with
      | none => rw [htr] at h; cases h
      | some tr =>
        rw [htr] at h
        simp only [Option.map_some'] at h
        cases h
        exact hmain _ htr ha
    | jStr s =>
      cases htr : traverseOpt
          (fun fp => ((jget (serMap r) fp.1).bind renderParam).map (fun v => (fp.1, v)))
          (sc.tyFields.filter (fun fp => fp.1 != sc.pk)) with
      | none => rw [htr] at h; cases h
      | some tr =>
        rw [htr] at h
        simp only [Option.map_some'] at h
        cases h
        exact hmain _ htr ha
    | jNull => cases h
    | jBool b => cases h
    | jFloat q => cases h

theorem pkMatchesText_applyAssigns (sc : Schema) (r : Rec)
    (assigns : List (String × String)) (pkp : String) (row : Row)
    (hupd : updateParams sc r = some (assigns, pkp)) :
    pkMatchesText sc.pk pkp (applyAssigns assigns row)
      = pkMatchesText sc.pk pkp row := by
  have hcell : rowCell (applyAssigns assigns row) sc.pk = rowCell row sc.pk :=
    applyAssigns_rowCell_ne sc.pk assigns row
      (updateParams_assigns sc r assigns pkp hupd)
  rw [pkMatchesText, pkMatchesText]
  cases decodeInt pkp with
  | none => rfl
  | some n => unfold pkMatches; rw [hcell]

/-! ## Claim theorems -/

/-- C1: the SQL text rendered by `fetch` is identical for any two
caller-supplied values — a query's text depends only on the shape of the
builder calls (operator and field), never on the values, which travel only
in the bound-value list.  Consequently `where_eq(field, v)` followed by
`fetch` runs a parameterized SELECT that returns exactly the stored rows
whose `field` cell equals `v` and hands back the table unchanged; at the
injection string of `test_sql_injection_protection` the rendered SQL is
plain `SELECT id, name, email FROM users WHERE name = ?`. -/
theorem where_values_never_in_sql (b : QueryBuilder) :
    (∀ (ops1 ops2 : List WhereOp), ops1.map shapeOf = ops2.map shapeOf →
       QueryBuilder.renderSQL (applyWheres b ops1)
         = QueryBuilder.renderSQL (applyWheres b ops2))
  ∧ (∀ (tn : String) (fs : List String) (f v : String) (t : List Row), f ∈ fs →
       execFetchRows ((QueryBuilder.new tn fs).where_eq f v) t
         = some (t.filter (fun r => evalEqCell (rowCell r f) v)))
  ∧ (∀ (tys : List (String × FieldTy)) (tn : String) (fs : List String)
       (f v : String) (t : List Row) (recs : List Rec) (tbl : List Row),
       dbFetch tys ((QueryBuilder.new tn fs).where_eq f v) t = some (recs, tbl) →
       tbl = t)
  ∧ QueryBuilder.renderSQL
      ((QueryBuilder.new "users" userFieldNames).where_eq "name" maliciousInput)
      = "SELECT id, name, email FROM users WHERE name = ?" := by
  refine ⟨?_, ?_, ?_, by decide⟩
  · intro ops1 ops2 hsh
    have hfr : ops1.map fragOf = ops2.map fragOf := by
      have e1 : ops1.map fragOf = (ops1.map shapeOf).map fragShape := by
        rw [List.map_map]; rfl
      have e2 : ops2.map fragOf = (ops2.map shapeOf).map fragShape := by
        rw [List.map_map]; rfl
      rw [e1, e2, hsh]
    have h1 := applyWheres_rest ops1 b
    have h2 := applyWheres_rest ops2 b
    apply renderSQL_congr
    · exact h1.1.trans h2.1.symm
    · exact h1.2.1.trans h2.2.1.symm
    · rw [applyWheres_clauses, applyWheres_clauses, hfr]
    · exact h1.2.2.1.trans h2.2.2.1.symm
    · exact h1.2.2.2.trans h2.2.2.2.symm
  · intro tn fs f v t hf
    simp only [execFetchRows, QueryBuilder.new, QueryBuilder.where_eq]
    simp only [List.nil_append]
    rw [show (([f ++ " = ?"].length == [v].length) = true) from rfl]
    simp only [List.zip_cons_cons, List.zip_nil_right, traverseOpt,
               parseEqFrag_self fs f hf]
    simp [List.all_cons]
  · intro tys tn fs f v t recs tbl h
    rw [dbFetch] at h
    cases hrows : execFetchRows ((QueryBuilder.new tn fs).where_eq f v) t with
    | none => rw [hrows] at h; cases h
    | some rows =>
      rw [hrows] at h
      simp only [Option.some_bind] at h
      cases htrav : traverseOpt (readRecordStrict tys) rows with
      | none => rw [htrav] at h; cases h
      | some recs0 =>
        rw [htrav] at h
        simp only [Option.map_some'] at h
        cases h
        rfl

/-- C1 witness: the parameterized-equality SELECT of
`where_eq("name", <injection string>)` evaluated on a concrete two-row
table. -/
theorem where_values_never_in_sql_witness :
    execFetchRows
        ((QueryBuilder.new "users" userFieldNames).where_eq "name" maliciousInput)
        [aliceRow, bobRow]
      = some ([aliceRow, bobRow].filter
          (fun r => evalEqCell (rowCell r "name") maliciousInput)) :=
  (where_values_never_in_sql
      (QueryBuilder.new "users" userFieldNames)).2.1
    "users" userFieldNames "name" maliciousInput [aliceRow, bobRow] (by decide)

/-- C2 counterexample: a record with a boolean attribute does not round
trip — the boolean is stored as the text "true", and the strict conversion
used by `find_by_id` rejects a string for a `bool` field, so the pipeline
returns an error, not `Some(r)`. -/
theorem roundtrip_bool_counterexample :
    ((dbInsert boolSchema flagRec []).bind
        (fun t => dbFindById boolSchema t 1) = none)
  ∧ ((dbInsert boolSchema flagRec []).bind
        (fun t => dbFindById boolSchema t 1) ≠ some (some flagRec)) := by
  refine ⟨by decide, ?_⟩
  intro h
  rw [show (dbInsert boolSchema flagRec []).bind
        (fun t => dbFindById boolSchema t 1) = none from by decide] at h
  cases h

/-- C2 (amended): the insert-then-find round trip holds for every record
whose non-key attributes are strings, present optional strings, or
enumerated variant names, and whose key attribute is the integer primary
key (reconciled through the engine's integer affinity); boolean and
absent-optional attributes are excluded, because they are stored as the
texts "true"/"false"/"NULL" which the strict conversion does not map
back. -/
theorem insert_find_roundtrip (sc : Schema) (r : Rec) (id : Int) (t : List Row)
    (hAl : rtAligned sc.pk sc.tyFields r = true)
    (hNd : (r.map Prod.fst).Nodup)
    (hPk : jget r sc.pk = some (FieldVal.vInt id))
    (hid : decodeInt (toString id) = some id)
    (hfresh : ∀ row ∈ t, pkMatches sc.pk id row = false) :
    (dbInsert sc r t).bind (fun t2 => dbFindById sc t2 id) = some (some r) := by
  have hnames := aligned_names sc.pk sc.tyFields r hAl
  have hins : insertParams (sc.tyFields.map Prod.fst) (serMap r)
      = some (r.map (fun gv => renderedVal gv.2)) := by
    rw [hnames]; exact insertParams_of_names r hNd
  rw [dbInsert, hins]
  simp only [Option.map_some', Option.some_bind]
  rw [mkStored_aligned sc.pk sc.tyFields r hnames]
  have hmatch : pkMatches sc.pk id (storedRow sc.pk r) = true := by
    rw [pkMatches]
    have hc : rowCell (storedRow sc.pk r) sc.pk
        = some (storeParam (sc.pk == sc.pk) (renderedVal (FieldVal.vInt id))) := by
      rw [show rowCell (storedRow sc.pk r) sc.pk
            = jget (r.map (fun gv =>
                (gv.1, (fun g v => storeParam (g == sc.pk) (renderedVal v)) gv.1 gv.2)))
              sc.pk from rfl]
      rw [jget_mapVal (fun g v => storeParam (g == sc.pk) (renderedVal v)) r sc.pk]
      rw [hPk]
      rfl
    rw [hc]
    rw [show (sc.pk == sc.pk) = true from beq_self_eq_true sc.pk]
    rw [show renderedVal (FieldVal.vInt id) = toString id from rfl]
    rw [storeParam]
    simp [hid]
  have hfilter : (t ++ [storedRow sc.pk r]).filter (pkMatches sc.pk id)
      = [storedRow sc.pk r] := by
    rw [List.filter_append]
    rw [List.filter_eq_nil_iff.mpr
        (fun a ha => by rw [hfresh a ha]; exact Bool.false_ne_true)]
    simp [hmatch]
  rw [dbFindById, hfilter]
  have hpkv : ∀ gv ∈ r, gv.1 = sc.pk → gv.2 = FieldVal.vInt id :=
    jget_unique r sc.pk (FieldVal.vInt id) hNd hPk
  show Option.map some (readRecordStrict sc.tyFields (storedRow sc.pk r))
      = some (some r)
  rw [readRecord_storedRow sc.pk id hid sc.tyFields r hAl hNd hpkv]
  rfl

/-- C2 witness: the round trip evaluated on a concrete record with an
integer key, two strings, an enumerated role and a present optional. -/
theorem insert_find_roundtrip_witness :
    (dbInsert mixSchema mixRec []).bind (fun t2 => dbFindById mixSchema t2 5)
      = some (some mixRec) :=
  insert_find_roundtrip mixSchema mixRec 5 []
    (by decide) (by decide) (by decide) (by decide)
    (fun row hrow => absurd hrow (List.not_mem_nil row))

/-- C3: on the `Post` record of the crate's own `test_multiple_models`, the
strict conversion actually wired into `fetch`/`find_by_id`
(`serde_json::from_value`) errors on the text-stored non-key integer
`author_id`, while the coercive §4.2 bridge implemented in `util.rs` (not
compiled into the crate — `lib.rs` omits `mod util`) recovers the record
exactly.  The whole-table fetch errors as well. -/
theorem strict_read_fails_on_text_int :
    ((dbInsert postSchema postRec []).bind
        (fun t => dbFindById postSchema t 1) = none)
  ∧ ((dbInsert postSchema postRec []).map
        (fun t => t.map (readRecordLoose postSchema.tyFields))
      = some [some postRec])
  ∧ dbFetch postSchema.tyFields
      (QueryBuilder.new "posts" (postSchema.tyFields.map Prod.fst))
      [storedRow "id" postRec] = none := by
  refine ⟨by decide, by decide, by decide⟩

/-- C4: `fetch_one` is `fetch` with the limit forced to 1 — replacing any
limit set earlier on the builder — followed by taking the first element:
at least one row gives `Some(first)`, zero rows give `None`, and a
zero-row result is not an error. -/
theorem fetchone_equiv_limit_fetch (tys : List (String × FieldTy))
    (b : QueryBuilder) (t : List Row) :
    (∀ n : Nat, dbFetchOne tys (b.limit n) t = dbFetchOne tys b t)
  ∧ (∀ recs tbl, dbFetch tys (b.limit 1) t = some (recs, tbl) →
       dbFetchOne tys b t = some recs.head?)
  ∧ (∀ tbl, dbFetch tys (b.limit 1) t = some ([], tbl) →
       dbFetchOne tys b t = some none)
  ∧ (∀ r rs tbl, dbFetch tys (b.limit 1) t = some (r :: rs, tbl) →
       dbFetchOne tys b t = some (some r)) := by
  refine ⟨?_, ?_, ?_, ?_⟩
  · intro n; rfl
  · intro recs tbl h; rw [dbFetchOne, h]; rfl
  · intro tbl h; rw [dbFetchOne, h]; rfl
  · intro r rs tbl h; rw [dbFetchOne, h]; rfl

/-- C4 witness: a query matching no row yields `Ok(None)` from
`fetch_one`, not an error. -/
theorem fetchone_equiv_limit_fetch_witness :
    dbFetchOne userSchema.tyFields
        ((QueryBuilder.new "users" userFieldNames).where_eq "name" "Zed")
        [aliceRow]
      = some none :=
  (fetchone_equiv_limit_fetch userSchema.tyFields
      ((QueryBuilder.new "users" userFieldNames).where_eq "name" "Zed")
      [aliceRow]).2.2.1 [aliceRow] (by decide)

/-- C5: each column read probes in the fixed order i64, then String, then
f64; the first success determines the recorded untyped value (the f64 case
through `Number::from_f64` with 0 as the non-finite fallback), and if all
three probes fail the value recorded is null. -/
theorem probe_fixed_order (v : SqlVal) :
    (∀ n : Int, getI64 v = some n → probe v = .jInt n)
  ∧ (getI64 v = none → ∀ s, getText v = some s → probe v = .jStr s)
  ∧ (getI64 v = none → getText v = none → ∀ f, getF64 v = some f →
       probe v = (match fromF64 f with | some q => .jFloat q | none => .jInt 0))
  ∧ (getI64 v = none → getText v = none → getF64 v = none →
       probe v = .jNull) := by
  refine ⟨?_, ?_, ?_, ?_⟩
  · intro n h; simp [probe, h]
  · intro h1 s h2; simp [probe, h1, h2]
  · intro h1 h2 f h3
    simp only [probe, h1, h2, h3]
  · intro h1 h2 h3; simp [probe, h1, h2, h3]

/-- C5 witness: a TEXT cell probes to a string, a NULL cell to null. -/
theorem probe_fixed_order_witness :
    probe (SqlVal.text "abc") = Json.jStr "abc" ∧ probe SqlVal.null = Json.jNull :=
  ⟨(probe_fixed_order (SqlVal.text "abc")).2.1 rfl "abc" rfl,
   (probe_fixed_order SqlVal.null).2.2.2 rfl rfl rfl⟩

/-- C6: each where-building call appends the fragment `"<field> <op> ?"`
and pushes the value, in call order; `fetch` renders the WHERE clause as
the fragments joined with `" AND "` in exactly that order (shown on a
fresh builder), with the bound values in the same order. -/
theorem where_fragments_in_order (b : QueryBuilder) (ops : List WhereOp)
    (tn : String) (fs : List String) :
    (applyWheres b ops).where_clauses = b.where_clauses ++ ops.map fragOf
  ∧ (applyWheres b ops).where_values = b.where_values ++ ops.map valOf
  ∧ (ops ≠ [] →
      QueryBuilder.renderSQL (applyWheres (QueryBuilder.new tn fs) ops)
        = "SELECT " ++ String.intercalate ", " fs ++ " FROM " ++ tn
          ++ " WHERE " ++ String.intercalate " AND " (ops.map fragOf)) := by
  refine ⟨applyWheres_clauses ops b, applyWheres_values ops b, ?_⟩
  intro hne
  have hr := applyWheres_rest ops (QueryBuilder.new tn fs)
  have hc := applyWheres_clauses ops (QueryBuilder.new tn fs)
  have hmid : QueryBuilder.renderSQL (applyWheres (QueryBuilder.new tn fs) ops)
      = QueryBuilder.renderSQL ⟨tn, fs, ops.map fragOf, [], none, none⟩ := by
    apply renderSQL_congr
    · exact hr.1
    · exact hr.2.1
    · simpa [QueryBuilder.new] using hc
    · exact hr.2.2.1
    · exact hr.2.2.2
  rw [hmid]
  have hemp : (ops.map fragOf).isEmpty = false := by
    cases ops with
    | nil => exact absurd rfl hne
    | cons a l => rfl
  simp [QueryBuilder.renderSQL, hemp]

/-- C6 witness: two chained predicates render joined by `" AND "` in call
order. -/
theorem where_fragments_in_order_witness :
    QueryBuilder.renderSQL
        (applyWheres (QueryBuilder.new "users" userFieldNames)
          [WhereOp.weq "name" "Alice", WhereOp.wgt "id" "1"])
      = "SELECT id, name, email FROM users WHERE name = ? AND id > ?" := by
  have h := (where_fragments_in_order (QueryBuilder.new "users" userFieldNames)
      [WhereOp.weq "name" "Alice", WhereOp.wgt "id" "1"]
      "users" userFieldNames).2.2 (by decide)
  rw [h]
  decide

/-- C7: `order_by` and `limit` overwrite rather than accumulate — the
rendered SQL after two calls equals the rendered SQL after just the last
call, so at most one ordering clause and one limit appear. -/
theorem orderby_limit_last_wins (b : QueryBuilder) (f1 f2 : String)
    (a1 a2 : Bool) (m n : Nat) :
    QueryBuilder.renderSQL ((b.order_by f1 a1).order_by f2 a2)
      = QueryBuilder.renderSQL (b.order_by f2 a2)
  ∧ QueryBuilder.renderSQL ((b.limit m).limit n)
      = QueryBuilder.renderSQL (b.limit n) :=
  ⟨rfl, rfl⟩

/-- C8: `update` and `delete` on a key matching no stored row return
affected-count 0 without error; on a table holding exactly one row with
the key they return 1, the deletion makes `find_by_id` return absent, and
the update rewrites exactly that row's SET columns, the updated row being
what the next keyed read returns. -/
theorem update_delete_counts (sc : Schema) (r : Rec) (id : Int)
    (t t1 t2 : List Row) (row : Row)
    (assigns : List (String × String)) (pkp : String) :
    ((∀ rw2 ∈ t, pkMatches sc.pk id rw2 = false) → dbDelete sc t id = (0, t))
  ∧ (updateParams sc r = some (assigns, pkp) → assigns ≠ [] →
     (∀ rw2 ∈ t, pkMatchesText sc.pk pkp rw2 = false) →
     dbUpdate sc r t = some (0, t))
  ∧ ((∀ rw2 ∈ t1, pkMatches sc.pk id rw2 = false) →
     (∀ rw2 ∈ t2, pkMatches sc.pk id rw2 = false) →
     pkMatches sc.pk id row = true →
     dbDelete sc (t1 ++ row :: t2) id = (1, t1 ++ t2)
     ∧ dbFindById sc (t1 ++ t2) id = some none)
  ∧ (updateParams sc r = some (assigns, pkp) → assigns ≠ [] →
     (∀ rw2 ∈ t1, pkMatchesText sc.pk pkp rw2 = false) →
     (∀ rw2 ∈ t2, pkMatchesText sc.pk pkp rw2 = false) →
     pkMatchesText sc.pk pkp row = true →
     dbUpdate sc r (t1 ++ row :: t2)
       = some (1, t1 ++ applyAssigns assigns row :: t2)
     ∧ ((t1 ++ applyAssigns assigns row :: t2).filter
          (pkMatchesText sc.pk pkp)).head?
         = some (applyAssigns assigns row)) := by
  refine ⟨?_, ?_, ?_, ?_⟩
  · intro hfresh
    have h1 : t.countP (pkMatches sc.pk id) = 0 :=
      List.countP_eq_zero.mpr
        (fun a ha => by rw [hfresh a ha]; exact Bool.false_ne_true)
    have h2 : t.filter (fun r2 => !pkMatches sc.pk id r2) = t :=
      List.filter_eq_self.mpr (fun a ha => by rw [hfresh a ha]; rfl)
    rw [dbDelete, h1, h2]
  · intro hupd hne hfresh
    have hemp : assigns.isEmpty = false := by
      cases assigns with
      | nil => exact absurd rfl hne
      | cons a as => rfl
    rw [dbUpdate, hupd]
    simp only [Option.some_bind, hemp]
    rw [if_neg (by simp)]
    have h1 : t.countP (pkMatchesText sc.pk pkp) = 0 :=
      List.countP_eq_zero.mpr
        (fun a ha => by rw [hfresh a ha]; exact Bool.false_ne_true)
    have h2 : t.map (fun row2 =>
        if pkMatchesText sc.pk pkp row2 then applyAssigns assigns row2 else row2)
        = t := by
      rw [List.map_congr_left (fun a ha => by rw [hfresh a ha]; rfl : ∀ a ∈ t,
            (if pkMatchesText sc.pk pkp a then applyAssigns assigns a else a)
              = (fun x => x) a)]
      exact List.map_id' t
    rw [h1, h2]
  · intro hf1 hf2 hrow
    constructor
    · have hc1 : t1.countP (pkMatches sc.pk id) = 0 :=
        List.countP_eq_zero.mpr
          (fun a ha => by rw [hf1 a ha]; exact Bool.false_ne_true)
      have hc2 : t2.countP (pkMatches sc.pk id) = 0 :=
        List.countP_eq_zero.mpr
          (fun a ha => by rw [hf2 a ha]; exact Bool.false_ne_true)
      have hfil1 : t1.filter (fun r2 => !pkMatches sc.pk id r2) = t1 :=
        List.filter_eq_self.mpr (fun a ha => by rw [hf1 a ha]; rfl)
      have hfil2 : t2.filter (fun r2 => !pkMatches sc.pk id r2) = t2 :=
        List.filter_eq_self.mpr (fun a ha => by rw [hf2 a ha]; rfl)
      rw [dbDelete, List.countP_append, List.countP_cons, hc1, hc2, hrow]
      rw [List.filter_append, hfil1, List.filter_cons, hrow]
      simp [hfil2]
    · rw [dbFindById]
      have hnil : (t1 ++ t2).filter (pkMatches sc.pk id) = [] := by
        rw [List.filter_append,
            List.filter_eq_nil_iff.mpr
              (fun a ha => by rw [hf1 a ha]; exact Bool.false_ne_true),
            List.filter_eq_nil_iff.mpr
              (fun a ha => by rw [hf2 a ha]; exact Bool.false_ne_true)]
        rfl
      rw [hnil]
      rfl
  · intro hupd hne hf1 hf2 hrow
    have hemp : assigns.isEmpty = false := by
      cases assigns with
      | nil => exact absurd rfl hne
      | cons a as => rfl
    constructor
    · rw [dbUpdate, hupd]
      simp only [Option.some_bind, hemp]
      rw [if_neg (by simp)]
      have hc1 : t1.countP (pkMatchesText sc.pk pkp) = 0 :=
        List.countP_eq_zero.mpr
          (fun a ha => by rw [hf1 a ha]; exact Bool.false_ne_true)
      have hc2 : t2.countP (pkMatchesText sc.pk pkp) = 0 :=
        List.countP_eq_zero.mpr
          (fun a ha => by rw [hf2 a ha]; exact Bool.false_ne_true)
      have hm1 : t1.map (fun row2 =>
          if pkMatchesText sc.pk pkp row2 then applyAssigns assigns row2 else row2)
          = t1 := by
        rw [List.map_congr_left (fun a ha => by rw [hf1 a ha]; rfl : ∀ a ∈ t1,
              (if pkMatchesText sc.pk pkp a then applyAssigns assigns a else a)
                = (fun x => x) a)]
        exact List.map_id' t1
      have hm2 : t2.map (fun row2 =>
          if pkMatchesText sc.pk pkp row2 then applyAssigns assigns row2 else row2)
          = t2 := by
        rw [List.map_congr_left (fun a ha => by rw [hf2 a ha]; rfl : ∀ a ∈ t2,
              (if pkMatchesText sc.pk pkp a then applyAssigns assigns a else a)
                = (fun x => x) a)]
        exact List.map_id' t2
      rw [List.countP_append, List.countP_cons, hc1, hc2, hrow]
      rw [List.map_append, List.map_cons, hm1, hm2, if_pos hrow]
      simp
    · have hkeep : pkMatchesText sc.pk pkp (applyAssigns assigns row) = true := by
        rw [pkMatchesText_applyAssigns sc r assigns pkp row hupd]
        exact hrow
      rw [List.filter_append,
          List.filter_eq_nil_iff.mpr
            (fun a ha => by rw [hf1 a ha]; exact Bool.false_ne_true),
          List.filter_cons, hkeep]
      rfl

/-- C8 witness: deleting the only row with key 1 from a two-row table
returns count 1, and the following keyed read is absent. -/
theorem update_delete_counts_witness :
    dbDelete userSchema ([] ++ aliceRow :: [bobRow]) 1 = (1, [] ++ [bobRow])
  ∧ dbFindById userSchema ([] ++ [bobRow]) 1 = some none :=
  (update_delete_counts userSchema aliceRec 1 [] [] [bobRow] aliceRow
      [("name", "x")] "1").2.2.1
    (fun rw2 hrw2 => absurd hrw2 (List.not_mem_nil rw2))
    (by decide)
    (by decide)

/-- C9: a column value failing the integer and text probes but reading as
a non-finite 64-bit float (NaN or an infinity) is recorded as the number
0 — not null and not an error. -/
theorem probe_nonfinite_zero (v : SqlVal) (f : F64)
    (h1 : getI64 v = none) (h2 : getText v = none) (h3 : getF64 v = some f)
    (h4 : f.isFinite = false) : probe v = Json.jInt 0 := by
  have hf : fromF64 f = none := by
    cases f with
    | fin q => simp [F64.isFinite] at h4
    | nan => rfl
    | inf => rfl
    | ninf => rfl
  simp [probe, h1, h2, h3, hf]

/-- C9 witness: a NaN REAL cell probes to the number 0. -/
theorem probe_nonfinite_zero_witness : probe (SqlVal.real F64.nan) = Json.jInt 0 :=
  probe_nonfinite_zero (SqlVal.real F64.nan) F64.nan rfl rfl rfl rfl

/-- C10: an attribute serializing to null binds the four-character string
"NULL" in both `insert` and `update`; the non-key TEXT column stores that
text, and a subsequent read probes it back as the string "NULL" — an
`Option<String>` target then reads `Some("NULL")`, not an absent value. -/
theorem null_binds_text (r : Rec) (f : String)
    (h : jget r f = some FieldVal.vNone) :
    jget (serMap r) f = some Json.jNull
  ∧ renderParam Json.jNull = some "NULL"
  ∧ (∀ (names : List String) (ps : List String) (i : Nat)
       (h1 : i < names.length) (h2 : i < ps.length),
       insertParams names (serMap r) = some ps → names.get ⟨i, h1⟩ = f →
       ps.get ⟨i, h2⟩ = "NULL")
  ∧ (∀ (sc : Schema) (assigns : List (String × String)) (pkp : String),
       updateParams sc r = some (assigns, pkp) →
       ∀ fp ∈ sc.tyFields.filter (fun fp => fp.1 != sc.pk), fp.1 = f →
       (f, "NULL") ∈ assigns)
  ∧ storeParam false "NULL" = SqlVal.text "NULL"
  ∧ probe (SqlVal.text "NULL") = Json.jStr "NULL"
  ∧ deserFieldStrict FieldTy.optStr (Json.jStr "NULL")
      = some (FieldVal.vSomeStr "NULL") := by
  have hser : jget (serMap r) f = some Json.jNull := by
    rw [jget_serMap, h]; rfl
  refine ⟨hser, rfl, ?_, ?_, rfl, rfl, rfl⟩
  · intro names ps i h1 h2 hins hname
    have hi := traverseOpt_get _ names ps hins i h1 h2
    rw [hname, hser] at hi
    simpa [renderParam] using hi.symm
  · intro sc assigns pkp hupd fp hfp hfpf
    have hmem : ∀ (tr : List (String × String)),
        traverseOpt
          (fun fp => ((jget (serMap r) fp.1).bind renderParam).map
            (fun v => (fp.1, v)))
          (sc.tyFields.filter (fun fp => fp.1 != sc.pk)) = some tr →
        (f, "NULL") ∈ tr := by
      intro tr htr
      apply traverseOpt_forward _ _ tr htr fp hfp
      rw [hfpf, hser]
      rfl
    rw [updateParams] at hupd
    cases hpk : jget (serMap r) sc.pk with
    | none => rw [hpk] at hupd; cases hupd
    | some j =>
      rw [hpk] at hupd
      cases j with
      | jInt n =>
        cases htr : traverseOpt
            (fun fp => ((jget (serMap r) fp.1).bind renderParam).map
              (fun v => (fp.1, v)))
            (sc.tyFields.filter (fun fp => fp.1 != sc.pk)) with
        | none => rw [htr] at hupd; cases hupd
        | some tr =>
          rw [htr] at hupd
          simp only [Option.map_some'] at hupd
          cases hupd
          exact hmem _ htr
      | jStr s =>
        cases htr : traverseOpt
            (fun fp => ((jget (serMap r) fp.1).bind renderParam).map
              (fun v => (fp.1, v)))
            (sc.tyFields.filter (fun fp => fp.1 != sc.pk)) with
        | none => rw [htr] at hupd; cases hupd
        | some tr =>
          rw [htr] at hupd
          simp only [Option.map_some'] at hupd
          cases hupd
          exact hmem _ htr
      | jNull => cases hupd
      | jBool b => cases hupd
      | jFloat q => cases hupd

/-- C10 witness: inserting a record whose optional `nick` is absent binds
"NULL" at that parameter position. -/
theorem null_binds_text_witness :
    insertParams ["id", "nick"] (serMap optRec) = some ["7", "NULL"]
  ∧ (["7", "NULL"] : List String).get ⟨1, by decide⟩ = "NULL" :=
  ⟨by decide,
   (null_binds_text optRec "nick" (by decide)).2.2.1
     ["id", "nick"] ["7", "NULL"] 1 (by decide) (by decide) (by decide)
     (by decide)⟩

end Pebble
